import Mathlib

/-!
Verification of the kontent-ai migration toolkit core against its
natural-language specification.  The definitions below are shallow
embeddings of the TypeScript source: pure functions become Lean
functions, fallible code returns `Except`, and the sequences of
management-API calls issued by the importers are reified as event
traces.
-/

namespace Migration

/-- A reference to a platform entity by codename (the wire shape of a
reference object in the migration snapshot). -/
structure MigrationReference where
  codename : String
deriving Repr, DecidableEq

/- ---------------------------------------------------------------------
   Retry strategy (src/unnamed/part_002)
--------------------------------------------------------------------- -/

/-- Retry strategy options, mirroring `IRetryStrategyOptions` as
configured by the toolkit.  `canRetryError` receives the platform
error code carried by the failed response, when one is present. -/
structure RetryStrategyOptions where
  addJitter : Bool
  maxAttempts : Nat
  deltaBackoffMs : Nat
  canRetryError : Option Nat → Bool

/-- The rate-exceeded platform error code (src/unnamed/part_002). -/
def rateExceededErrorCode : Nat := 10000

/-- Embedding of the `canRetryError` callback of `defaultRetryStrategy`:
the platform error code defaults to `-1` when absent, and the error is
non-retryable exactly when a code is present, is nonnegative, and
differs from the rate-exceeded code. -/
def defaultCanRetryError (responseErrorCode : Option Nat) : Bool :=
  let errorCode : Int := (responseErrorCode.map Int.ofNat).getD (-1)
  if errorCode ≥ 0 ∧ errorCode ≠ (rateExceededErrorCode : Int) then false else true

/-- Embedding of `defaultRetryStrategy` (src/unnamed/part_002). -/
def defaultRetryStrategy : RetryStrategyOptions :=
  { addJitter := true
    canRetryError := defaultCanRetryError
    maxAttempts := 3
    deltaBackoffMs := 1000 }

/- ---------------------------------------------------------------------
   Component codename to UUID conversion (src/lib/core/translation-helper.ts)
--------------------------------------------------------------------- -/

/-- Is the character a hexadecimal digit. -/
def isHexDigit (c : Char) : Bool :=
  (decide ('0' ≤ c) && decide (c ≤ '9')) ||
  (decide ('a' ≤ c) && decide (c ≤ 'f')) ||
  (decide ('A' ≤ c) && decide (c ≤ 'F'))

/-- Modelled from the spec: the external `uuid` library `validate`
function used by `convertComponentCodenameToId`; it accepts exactly the
canonical hyphenated UUID layout (36 characters, hyphens at positions
8, 13, 18 and 23, hexadecimal digits elsewhere). -/
def validateUuid (s : String) : Bool :=
  let cs := s.toList
  cs.length == 36 &&
  (List.range 36).all (fun i =>
    let c := cs.getD i ' '
    if i == 8 || i == 13 || i == 18 || i == 23 then c == '-' else isHexDigit c)

/-- The codename with every underscore replaced by a hyphen, as done by
`codename.replaceAll('_', '-')` in the source. -/
def normalizeCodenameToUuidCandidate (codename : String) : String :=
  String.mk (codename.data.map (fun c => if c = '_' then '-' else c))

/-- Embedding of `convertComponentCodenameToId`
(src/lib/core/translation-helper.ts lines 486 to 495).  The external
`uuid-by-string` hash is passed in as a pure function, matching its
deterministic contract. -/
def convertComponentCodenameToId (uuidByString : String → String) (codename : String) : String :=
  let uuidCandidate := normalizeCodenameToUuidCandidate codename
  if !(validateUuid uuidCandidate) then uuidByString codename else uuidCandidate

/- ---------------------------------------------------------------------
   Export element transforms (src/unnamed/part_009)
--------------------------------------------------------------------- -/

/-- The wire value of a reference-typed element as received from the
management API: absent or null, a non-array scalar, or an array of
reference objects whose `id` field may itself be undefined. -/
inductive ExportElementValue where
  | absent
  | scalar (s : String)
  | refs (ids : List (Option String))
deriving Repr, DecidableEq

/-- The slice of `ExportContext` that the reference-translating export
transforms consult: codename lookup for items and assets in the source
environment.  `getItemStateInSourceEnvironment(id).item` is `some
codename` when the item resolves. -/
structure ExportTransformContext where
  itemCodenameById : String → Option String
  assetCodenameById : String → Option String

/-- Embedding of `exportTransforms.modular_content` (src/unnamed/part_009
lines 107 to 135): item ids are translated to codenames, and ids that do
not resolve in the source environment are mapped to `undefined` and
filtered out. -/
def exportTransformModularContent (ctx : ExportTransformContext) (value : ExportElementValue) :
    Except String (List MigrationReference) :=
  match value with
  | .absent => .ok []
  | .scalar _ => .error "Expected value to be an array"
  | .refs ids =>
      .ok (((ids.filterMap id).filterMap
        (fun i => (ctx.itemCodenameById i).map MigrationReference.mk)))

/-- Embedding of `exportTransforms.asset` (src/unnamed/part_009 lines 41
to 68): asset ids are translated to codenames, and an id that does not
resolve in the source environment throws. -/
def exportTransformAsset (ctx : ExportTransformContext) (value : ExportElementValue) :
    Except String (List MigrationReference) :=
  match value with
  | .absent => .ok []
  | .scalar _ => .error "Expected value to be an array"
  | .refs ids =>
      (ids.filterMap id).mapM (fun i =>
        match ctx.assetCodenameById i with
        | some codename => .ok (MigrationReference.mk codename)
        | none => .error ("Missing asset with id " ++ i))

/-- Embedding of `exportTransforms.subpages` (src/unnamed/part_009 lines
180 to 206): item ids are translated to codenames, and an id that does
not resolve in the source environment throws. -/
def exportTransformSubpages (ctx : ExportTransformContext) (value : ExportElementValue) :
    Except String (List MigrationReference) :=
  match value with
  | .absent => .ok []
  | .scalar _ => .error "Expected value to be an array"
  | .refs ids =>
      (ids.filterMap id).mapM (fun i =>
        match ctx.itemCodenameById i with
        | some codename => .ok (MigrationReference.mk codename)
        | none => .error ("Missing item with id " ++ i))

/- ---------------------------------------------------------------------
   Export manager element mapping (src/lib/export/export-manager.ts)
--------------------------------------------------------------------- -/

/-- One element descriptor of a flattened content type. -/
structure FlattenedContentTypeElement where
  id : String
  codename : String
  type : String
deriving Repr, DecidableEq

/-- A flattened content type: the content model as a list of element
descriptors. -/
structure FlattenedContentType where
  contentTypeCodename : String
  elements : List FlattenedContentTypeElement
deriving Repr, DecidableEq

/-- One element of a language variant as returned by the management
API, identified by the id of its content type element. -/
structure ContentItemElement where
  elementId : String
  rawValue : ExportElementValue
deriving Repr, DecidableEq

/-- Lexicographic less-or-equal on character lists: the order in which
the JavaScript comparator of `getMigrationElements` ranks element
codenames. -/
def charListLe : List Char → List Char → Bool
  | [], _ => true
  | _ :: _, [] => false
  | a :: as, b :: bs => if a < b then true else if b < a then false else charListLe as bs

/-- The comparator passed to `toSorted` in `getMigrationElements`:
ascending element codename. -/
def elementCodenameLe (a b : FlattenedContentTypeElement) : Bool :=
  charListLe a.codename.data b.codename.data

/-- Insert one element descriptor into a codename-sorted list, keeping
earlier elements first on ties (the stability contract of
`toSorted`). -/
def insertByCodename (e : FlattenedContentTypeElement) :
    List FlattenedContentTypeElement → List FlattenedContentTypeElement
  | [] => [e]
  | x :: xs => if elementCodenameLe e x then e :: x :: xs else x :: insertByCodename e xs

/-- The stable sort applied to the content type elements by
`getMigrationElements` before mapping (`toSorted` with the ascending
codename comparator). -/
def sortElementsByCodename (els : List FlattenedContentTypeElement) :
    List FlattenedContentTypeElement :=
  els.foldr insertByCodename []

/-- Embedding of `getMigrationElements`
(src/lib/export/export-manager.ts lines 107 to 149).  The per-element
transform (dispatch into the export transform registry plus error
wrapping, `getMigrationElementToStore`) is passed in as a function; the
result is the ordered key-value map built by the `reduce`, with object
key insertion order made explicit as an association list.  A type
element with no matching item element throws (`findRequired`). -/
def getMigrationElements (transform : FlattenedContentTypeElement → ContentItemElement → String)
    (contentType : FlattenedContentType) (elements : List ContentItemElement) :
    Except String (List (String × String)) :=
  (sortElementsByCodename contentType.elements).foldlM
    (fun model typeElement =>
      match elements.find? (fun m => m.elementId == typeElement.id) with
      | none => .error ("Could not find element " ++ typeElement.codename)
      | some itemElement =>
          .ok (model ++ [(typeElement.codename, transform typeElement itemElement)]))
    []

/- ---------------------------------------------------------------------
   Processing harness
   (src/lib/core/utils/processing-utils.ts, and the second harness shape
   appended in src/lib/core/translation-helper.ts lines 516 to 585)
--------------------------------------------------------------------- -/

/-- The outcome of one invocation of the per-item process function:
success, the `'404'` sentinel, or a thrown exception. -/
inductive ProcessOutcome (ο ε : Type) where
  | success (output : ο)
  | notFound
  | failure (e : ε)
deriving Repr, DecidableEq

/-- One result slot of the harness, mirroring `ItemProcessingResult`
with `state` valid, 404 or error. -/
inductive ItemProcessingResult (ι ο ε : Type) where
  | valid (inputItem : ι) (outputItem : ο)
  | notFound (inputItem : ι)
  | error (inputItem : ι) (err : ε)
deriving Repr, DecidableEq

/-- Log messages emitted through the spinner and logger by the two
harness shapes. -/
inductive HarnessLogEntry where
  | progress (percent : Nat) (title : String)
  | processingError (title : String)
  | errorLog (title : String)
  | completion (action : String) (succeededCount failedCount : Nat)
  | completionCount (action : String) (count : Nat)
deriving Repr, DecidableEq

/-- `Math.round((processed / total) * 100)` over the rationals, for
positive `total` (JavaScript rounds halves up for positive values). -/
def roundPercent (processed total : Nat) : Nat :=
  (200 * processed + total) / (2 * total)

/-- How one item is classified into its result slot by the harness in
src/lib/core/utils/processing-utils.ts: the `.then` chain turns success
into a valid slot and the `'404'` sentinel into a 404 slot, and the
`.catch` records a thrown error against the slot. -/
def classifyProcessOutcome {ι ο ε : Type} (process : ι → ProcessOutcome ο ε) (item : ι) :
    ItemProcessingResult ι ο ε :=
  match process item with
  | .success o => .valid item o
  | .notFound => .notFound item
  | .failure e => .error item e

/-- Is the slot a valid result. -/
def ItemProcessingResult.isValid {ι ο ε : Type} : ItemProcessingResult ι ο ε → Bool
  | .valid _ _ => true
  | _ => false

/-- Is the slot an error result. -/
def ItemProcessingResult.isError {ι ο ε : Type} : ItemProcessingResult ι ο ε → Bool
  | .error _ _ => true
  | _ => false

/-- Embedding of `processItemsAsync`
(src/lib/core/utils/processing-utils.ts lines 18 to 113), with the
sequential semantics fixed by the importer call sites
(`parallelLimit: 1`; under the limiter each completion increments the
shared counter once, in input order).  Returns the result slots in
input order together with the emitted log messages.  An empty input
returns before the spinner is opened, so no message is emitted. -/
def processItemsAsync {ι ο ε : Type} (action : String) (items : List ι) (itemTitle : ι → String)
    (process : ι → ProcessOutcome ο ε) :
    List (ItemProcessingResult ι ο ε) × List HarnessLogEntry :=
  match items with
  | [] => ([], [])
  | first :: rest =>
    let all := first :: rest
    let n := all.length
    let results := all.map (classifyProcessOutcome process)
    let perItemLogs := all.enum.map (fun p =>
      match process p.2 with
      | .failure _ => HarnessLogEntry.processingError (itemTitle p.2)
      | _ => HarnessLogEntry.progress (roundPercent (p.1 + 1) n) (itemTitle p.2))
    let logs :=
      HarnessLogEntry.progress (roundPercent 0 n) (itemTitle first)
        :: perItemLogs
        ++ [HarnessLogEntry.completion action
              (results.countP (fun r => r.isValid))
              (results.countP (fun r => r.isError))]
    (results, logs)

/-- Sequential core of the second harness shape (the `requests` map of
the `processItemsAsync` appended in src/lib/core/translation-helper.ts):
a success logs a progress message and increments the processed counter;
a thrown error is rethrown when `failOnError` holds and otherwise is
logged and mapped to `null`, which the final `filter` drops from the
results. -/
def runFailFastAux {ι ο ε : Type} (failOnError : Bool) (itemTitle : ι → String)
    (process : ι → Except ε ο) (n : Nat) :
    Nat → List ι → Except ε (List ο × List HarnessLogEntry)
  | _, [] => .ok ([], [])
  | processedCount, item :: rest =>
    match process item with
    | .ok o =>
      match runFailFastAux failOnError itemTitle process n (processedCount + 1) rest with
      | .ok (os, ls) =>
          .ok (o :: os, HarnessLogEntry.progress (roundPercent processedCount n) (itemTitle item) :: ls)
      | .error e => .error e
    | .error e =>
      if failOnError then .error e
      else
        match runFailFastAux failOnError itemTitle process n processedCount rest with
        | .ok (os, ls) => .ok (os, HarnessLogEntry.errorLog (itemTitle item) :: ls)
        | .error e2 => .error e2

/-- Embedding of the second `processItemsAsync` shape
(src/lib/core/translation-helper.ts lines 516 to 585), which takes an
optional `failOnError` flag defaulting to `true`.  When an item throws
and the flag holds, the first error in input order rejects the whole
batch; otherwise errored items are logged and filtered out of the
results. -/
def processItemsFailFast {ι ο ε : Type} (action : String) (failOnError : Option Bool)
    (items : List ι) (itemTitle : ι → String) (process : ι → Except ε ο) :
    Except ε (List ο × List HarnessLogEntry) :=
  match items with
  | [] => .ok ([], [])
  | first :: rest =>
    let all := first :: rest
    match runFailFastAux (failOnError.getD true) itemTitle process all.length 1 all with
    | .error e => .error e
    | .ok (os, ls) =>
        .ok (os,
          HarnessLogEntry.progress (roundPercent 0 all.length) (itemTitle first)
            :: ls ++ [HarnessLogEntry.completionCount action os.length])

/- ---------------------------------------------------------------------
   Migration snapshot data model (import side)
--------------------------------------------------------------------- -/

/-- The scheduling block of a snapshot version; every field is
optional. -/
structure VersionSchedule where
  publish_time : Option String
  publish_display_timezone : Option String
  unpublish_time : Option String
  unpublish_display_timezone : Option String
deriving Repr, DecidableEq

/-- One workflow version of a migration item.  Element values are
carried opaquely as codename-keyed raw strings; the claims below do not
depend on their contents. -/
structure MigrationItemVersion where
  elements : List (String × String)
  schedule : Option VersionSchedule
  workflow_step : MigrationReference
deriving Repr, DecidableEq

/-- The `system` block of a migration item. -/
structure MigrationItemSystem where
  name : String
  codename : String
  language : MigrationReference
  type : MigrationReference
  collection : MigrationReference
  workflow : MigrationReference
deriving Repr, DecidableEq

/-- One content item within one language, as stored in the snapshot. -/
structure MigrationItem where
  system : MigrationItemSystem
  versions : List MigrationItemVersion
deriving Repr, DecidableEq

/- ---------------------------------------------------------------------
   Workflow definitions and the workflow helper
--------------------------------------------------------------------- -/

/-- One workflow step: codename, server id, and the codenames of the
steps it may transition to. -/
structure WorkflowStep where
  id : String
  codename : String
  transitionsTo : List String
deriving Repr, DecidableEq

/-- A workflow definition: the regular steps plus the three pseudo
steps (published, archived, scheduled). -/
structure Workflow where
  codename : String
  steps : List WorkflowStep
  publishedStep : WorkflowStep
  archivedStep : WorkflowStep
  scheduledStep : WorkflowStep
deriving Repr, DecidableEq

/-- Modelled from the spec: the workflow helper operation
`byCodename(c)` (the helper itself lives outside src/); a missing
workflow is a thrown lookup error. -/
def getWorkflowByCodename (workflows : List Workflow) (codename : String) :
    Except String Workflow :=
  match workflows.find? (fun w => w.codename == codename) with
  | some w => .ok w
  | none => .error ("Could not find workflow with codename " ++ codename)

/-- Modelled from the spec: `stepByCodename(wf, c)` resolving a step
codename within one workflow, including the published, archived and
scheduled pseudo steps. -/
def getStepByCodename (workflow : Workflow) (stepCodename : String) :
    Except String WorkflowStep :=
  match (workflow.steps ++
      [workflow.publishedStep, workflow.archivedStep, workflow.scheduledStep]).find?
      (fun s => s.codename == stepCodename) with
  | some s => .ok s
  | none => .error ("Could not find workflow step with codename " ++ stepCodename)

/-- Modelled from the spec: `getWorkflowAndStepByCodenames` resolving a
workflow codename and a step codename inside it. -/
def getWorkflowAndStepByCodenames (workflows : List Workflow)
    (workflowCodename stepCodename : String) : Except String (Workflow × WorkflowStep) := do
  let workflow ← getWorkflowByCodename workflows workflowCodename
  let step ← getStepByCodename workflow stepCodename
  .ok (workflow, step)

/-- Modelled from the spec: `stepById(wf, id)` resolving a step by its
server id within one workflow. -/
def getWorkflowStepById (workflow : Workflow) (stepId : String) :
    Except String WorkflowStep :=
  match (workflow.steps ++
      [workflow.publishedStep, workflow.archivedStep, workflow.scheduledStep]).find?
      (fun s => s.id == stepId) with
  | some s => .ok s
  | none => .error ("Could not find workflow step with id " ++ stepId)

/-- Modelled from the spec: `isPublished(c)` over the whole workflow
slice held by the helper. -/
def isPublishedStepByCodename (workflows : List Workflow) (stepCodename : String) : Bool :=
  workflows.any (fun w => w.publishedStep.codename == stepCodename)

/-- Modelled from the spec: `isArchived(c)` over the whole workflow
slice held by the helper. -/
def isArchivedStepByCodename (workflows : List Workflow) (stepCodename : String) : Bool :=
  workflows.any (fun w => w.archivedStep.codename == stepCodename)

/-- Modelled from the spec: `isScheduled(c)` over the whole workflow
slice held by the helper. -/
def isScheduledStepByCodename (workflows : List Workflow) (stepCodename : String) : Bool :=
  workflows.any (fun w => w.scheduledStep.codename == stepCodename)

/-- The outgoing transitions of a step codename inside a workflow; a
codename that is not a regular step (for example the published pseudo
step) has none. -/
def stepTransitions (workflow : Workflow) (stepCodename : String) : List String :=
  match workflow.steps.find? (fun s => s.codename == stepCodename) with
  | some s => s.transitionsTo
  | none => []

/-- One breadth-first expansion over paths stored in reverse (head is
the most recently reached codename); already visited codenames are not
re-entered. -/
def bfsExpand (workflow : Workflow) (visited : List String) (frontier : List (List String)) :
    List String × List (List String) :=
  frontier.foldl
    (fun acc path =>
      match path with
      | [] => acc
      | current :: _ =>
        (stepTransitions workflow current).foldl
          (fun acc2 nextStep =>
            if acc2.1.contains nextStep then acc2
            else (nextStep :: acc2.1, acc2.2 ++ [nextStep :: path]))
          acc)
    (visited, [])

/-- Fuelled breadth-first search returning the reversed path of the
first frontier entry that reaches the target. -/
def bfsSearch (workflow : Workflow) (target : String) :
    Nat → List String → List (List String) → Option (List String)
  | 0, _, _ => none
  | _, _, [] => none
  | fuel + 1, visited, frontier =>
    match frontier.find? (fun path => path.headD "" == target) with
    | some path => some path
    | none =>
        let expanded := bfsExpand workflow visited frontier
        bfsSearch workflow target fuel expanded.1 expanded.2

/-- Modelled from the spec: `findShortestPathBetweenSteps`, a BFS over
the directed graph given by each step's `transitions_to`, returning the
minimum-hop path from the variant step to the target step inclusive of
both endpoints (empty when unreachable). -/
def findShortestPathBetweenSteps (workflow : Workflow) (fromStep toStep : WorkflowStep) :
    List String :=
  match bfsSearch workflow toStep.codename (workflow.steps.length + 2) [fromStep.codename]
      [[fromStep.codename]] with
  | some path => path.reverse
  | none => []

/- ---------------------------------------------------------------------
   Workflow importer (src/lib/import/importers/workflow-importer.ts)
--------------------------------------------------------------------- -/

/-- The management-API calls and log messages issued while driving one
language variant, reified as an event trace in call order. -/
inductive VariantEvent where
  | upsertVariant (workflowCodename firstStepCodename versionStepCodename : String)
  | changeWorkflowStep (stepCodename : String)
  | publishCall
  | publishErrorLogged (message : String)
  | unpublishCall
  | createNewVersion
  | cancelScheduledPublish
  | cancelScheduledUnpublish
  | schedulePublish (time timezone : String)
  | scheduleUnpublish (time timezone : String)
deriving Repr, DecidableEq

/-- The outcome of the publish endpoint for this variant, supplied by
the environment: success, or an error that the `isBadPublish`
classifier (core helper outside src/, modelled from the spec as a
server-side validation failure marker) either accepts or rejects. -/
inductive PublishOutcome where
  | success
  | failure (isBadPublish : Bool) (message : String)
deriving Repr, DecidableEq

/-- Embedding of `publishLanguageVariantAsync`
(src/lib/import/importers/workflow-importer.ts lines 22 to 57): the
publish call is issued; a failure classified as bad publish is
swallowed and logged with a `publishError` message, any other failure
is rethrown. -/
def publishLanguageVariantAsync (outcome : PublishOutcome) : Except String (List VariantEvent) :=
  match outcome with
  | .success => .ok [.publishCall]
  | .failure true msg => .ok [.publishCall, .publishErrorLogged msg]
  | .failure false msg => .error msg

/-- Embedding of `getPreviousToPublishStep`
(src/lib/import/importers/workflow-importer.ts lines 59 to 67):
`steps[steps.length - 2]` of the shortest path, which in JavaScript is
undefined whenever the path has fewer than two entries. -/
def getPreviousToPublishStep (workflow : Workflow) (variantStep publishStep : WorkflowStep) :
    Option String :=
  let steps := findShortestPathBetweenSteps workflow variantStep publishStep
  if steps.length ≥ 2 then steps[steps.length - 2]? else none

/-- Embedding of `setWorkflowOfLanguageVariantAsync`
(src/lib/import/importers/workflow-importer.ts lines 356 to 398).
`variantStepId` is the current workflow step id of the language variant
as returned by the preceding upsert. -/
def setWorkflowOfLanguageVariantAsync (workflows : List Workflow) (outcome : PublishOutcome)
    (workflowCodename stepCodename variantStepId : String) :
    Except String (List VariantEvent) :=
  if isPublishedStepByCodename workflows stepCodename then do
    let (workflow, publishStep) ← getWorkflowAndStepByCodenames workflows workflowCodename stepCodename
    let variantStep ← getWorkflowStepById workflow variantStepId
    let changeEvents : List VariantEvent :=
      match getPreviousToPublishStep workflow variantStep publishStep with
      | some previousStepCodename => [.changeWorkflowStep previousStepCodename]
      | none => []
    let publishEvents ← publishLanguageVariantAsync outcome
    .ok (changeEvents ++ publishEvents)
  else if isArchivedStepByCodename workflows stepCodename then do
    let workflow ← getWorkflowByCodename workflows workflowCodename
    .ok [.changeWorkflowStep workflow.archivedStep.codename]
  else if isScheduledStepByCodename workflows stepCodename then
    .ok []
  else do
    let (_, step) ← getWorkflowAndStepByCodenames workflows workflowCodename stepCodename
    .ok [.changeWorkflowStep step.codename]

/-- Embedding of `moveToDraftStepAsync`
(src/lib/import/importers/workflow-importer.ts lines 290 to 321): move
the variant to the first step of the workflow named by the migration
item, doing nothing when the workflow has no steps. -/
def moveToDraftStepAsync (workflows : List Workflow) (migrationItem : MigrationItem) :
    Except String (List VariantEvent) := do
  let workflow ← getWorkflowByCodename workflows migrationItem.system.workflow.codename
  match workflow.steps.head? with
  | some firstWorkflowStep => .ok [.changeWorkflowStep firstWorkflowStep.codename]
  | none => .ok []

/-- Embedding of `setScheduledStateOfLanguageVariantAsync`
(src/lib/import/importers/workflow-importer.ts lines 323 to 354):
schedule unpublish, then schedule publish, each only when both its time
and display timezone are present in the snapshot version. -/
def setScheduledStateOfLanguageVariantAsync (version : MigrationItemVersion) :
    List VariantEvent :=
  match version.schedule with
  | none => []
  | some schedule =>
    (match schedule.unpublish_time, schedule.unpublish_display_timezone with
      | some time, some timezone => [VariantEvent.scheduleUnpublish time timezone]
      | _, _ => []) ++
    (match schedule.publish_time, schedule.publish_display_timezone with
      | some time, some timezone => [VariantEvent.schedulePublish time timezone]
      | _, _ => [])

/- ---------------------------------------------------------------------
   Language variant importer
   (src/lib/import/importers/language-variant-importer.ts)
--------------------------------------------------------------------- -/

/-- Embedding of `isPublishedWorkflowStep`
(src/lib/import/importers/language-variant-importer.ts lines 283 to
285). -/
def isPublishedWorkflowStep (stepCodename : String) (workflow : Workflow) : Bool :=
  workflow.publishedStep.codename == stepCodename

/-- Embedding of `categorizeVersions`
(src/lib/import/importers/language-variant-importer.ts lines 79 to
111): split the versions of the item into published and draft by
comparing each version step against the published step of the workflow
of the item; more than one of either kind throws a per-item error. -/
def categorizeVersions (workflows : List Workflow) (migrationItem : MigrationItem) :
    Except String (Option MigrationItemVersion × Option MigrationItemVersion) := do
  let workflow ← getWorkflowByCodename workflows migrationItem.system.workflow.codename
  let publishedVersions := migrationItem.versions.filter
    (fun version => isPublishedWorkflowStep version.workflow_step.codename workflow)
  let draftVersions := migrationItem.versions.filter
    (fun version => !(isPublishedWorkflowStep version.workflow_step.codename workflow))
  if publishedVersions.length > 1 then
    .error "There can be only 1 published version."
  else if draftVersions.length > 1 then
    .error "There can be only 1 draft version."
  else
    .ok (publishedVersions.head?, draftVersions.head?)

/-- Embedding of `importVersionAsync`
(src/lib/import/importers/language-variant-importer.ts lines 113 to
160): validate the workflow and step, create a new version when asked
to, upsert the variant elements with the first step of the workflow,
drive the workflow step, then apply scheduling.  The upsert response
carries the first step as the current variant step, so its id feeds the
workflow driver. -/
def importVersionAsync (workflows : List Workflow) (outcome : PublishOutcome)
    (migrationItem : MigrationItem) (version : MigrationItemVersion)
    (createNewVersion : Bool) : Except String (List VariantEvent) := do
  let (workflow, step) ← getWorkflowAndStepByCodenames workflows
    migrationItem.system.workflow.codename version.workflow_step.codename
  let newVersionEvents : List VariantEvent :=
    if createNewVersion then [.createNewVersion] else []
  match workflow.steps.head? with
  | none => .error "Workflow has no steps."
  | some firstStep => do
    let upsertEvents : List VariantEvent :=
      [.upsertVariant workflow.codename firstStep.codename version.workflow_step.codename]
    let workflowEvents ← setWorkflowOfLanguageVariantAsync workflows outcome
      workflow.codename step.codename firstStep.id
    .ok (newVersionEvents ++ upsertEvents ++ workflowEvents ++
      setScheduledStateOfLanguageVariantAsync version)

/-- The workflow and scheduled state of one language variant probed in
the target environment. -/
inductive TargetWorkflowState where
  | draft
  | published
  | archived
deriving Repr, DecidableEq

/-- The scheduled state of one language variant probed in the target
environment. -/
inductive TargetScheduledState where
  | scheduledPublish
  | scheduledUnpublish
  | noSchedule
deriving Repr, DecidableEq

/-- The `workflowState` block of a probed language variant. -/
structure TargetVariantWorkflowInfo where
  workflowState : Option TargetWorkflowState
  scheduledState : Option TargetScheduledState
deriving Repr, DecidableEq

/-- One probed language variant of the target environment. -/
structure TargetVariant where
  workflowState : Option TargetVariantWorkflowInfo
deriving Repr, DecidableEq

/-- The probed language variant state of one (item, language) in the
target environment. -/
structure TargetVariantState where
  draftLanguageVariant : Option TargetVariant
  publishedLanguageVariant : Option TargetVariant
deriving Repr, DecidableEq

/-- Embedding of `cancelScheduledStateAsync`
(src/lib/import/importers/language-variant-importer.ts lines 216 to
236). -/
def cancelScheduledStateEvents (scheduledState : TargetScheduledState) : List VariantEvent :=
  match scheduledState with
  | .scheduledPublish => [.cancelScheduledPublish]
  | .scheduledUnpublish => [.cancelScheduledUnpublish]
  | .noSchedule => []

/-- Embedding of `prepareTargetEnvironmentVariantForImportAsync`
(src/lib/import/importers/language-variant-importer.ts lines 238 to
281): prepare the variant that already exists in the target (draft
first, otherwise published) by cancelling its observed scheduled state,
then creating a new version when it is published or moving it to the
first step when it is archived. -/
def prepareTargetEnvironmentVariantForImportAsync (workflows : List Workflow)
    (migrationItem : MigrationItem) (targetVariantState : Option TargetVariantState) :
    Except String (List VariantEvent) :=
  match targetVariantState with
  | none => .ok []
  | some state =>
    match state.draftLanguageVariant.orElse (fun _ => state.publishedLanguageVariant) with
    | none => .ok []
    | some languageVariantToPrepare => do
      let cancelEvents : List VariantEvent :=
        match languageVariantToPrepare.workflowState.bind (fun info => info.scheduledState) with
        | some scheduledState => cancelScheduledStateEvents scheduledState
        | none => []
      match languageVariantToPrepare.workflowState.bind (fun info => info.workflowState) with
      | some .published => .ok (cancelEvents ++ [.createNewVersion])
      | some .archived => do
          let moveEvents ← moveToDraftStepAsync workflows migrationItem
          .ok (cancelEvents ++ moveEvents)
      | _ => .ok cancelEvents

/-- Embedding of `importLanguageVariantAsync`
(src/lib/import/importers/language-variant-importer.ts lines 162 to
214): categorize versions, prepare the target variant, import the
published version first when present, unpublish a stale published
target variant when the snapshot has none, then import the draft
version, creating a new version for it exactly when a published
version was imported in the same run. -/
def importLanguageVariantAsync (workflows : List Workflow) (outcome : PublishOutcome)
    (targetVariantState : Option TargetVariantState) (migrationItem : MigrationItem) :
    Except String (List VariantEvent) := do
  let (publishedVersion, draftVersion) ← categorizeVersions workflows migrationItem
  let prepareEvents ← prepareTargetEnvironmentVariantForImportAsync workflows migrationItem
    targetVariantState
  let publishedEvents ← match publishedVersion with
    | some version => importVersionAsync workflows outcome migrationItem version false
    | none => pure []
  let unpublishEvents ←
    if (targetVariantState.bind (fun s => s.publishedLanguageVariant)).isSome ∧
        publishedVersion.isNone then do
      let moveEvents ← moveToDraftStepAsync workflows migrationItem
      pure (VariantEvent.unpublishCall :: moveEvents)
    else pure []
  let draftEvents ← match draftVersion with
    | some version =>
        importVersionAsync workflows outcome migrationItem version publishedVersion.isSome
    | none => pure []
  .ok (prepareEvents ++ publishedEvents ++ unpublishEvents ++ draftEvents)

/- ---------------------------------------------------------------------
   Content item importer (src/lib/import/importers/content-items-importer.ts)
--------------------------------------------------------------------- -/

/-- A collection of the target environment. -/
structure Collection where
  id : String
  codename : String
deriving Repr, DecidableEq

/-- The shell of a content item already present in the target
environment, as returned by the probe. -/
structure TargetContentItem where
  name : String
  codename : String
  collectionId : String
deriving Repr, DecidableEq

/-- The probed state of one item codename in the target environment
(`ItemStateInTargetEnvironment`). -/
inductive ItemStateInTarget where
  | existsInTarget (item : TargetContentItem)
  | doesNotExist (externalIdToUse : String)
deriving Repr, DecidableEq

/-- The management-API calls that the content item importer can issue
for one item; each constructor carries exactly the payload fields sent
by the corresponding `withData` block. -/
inductive ContentItemAction where
  | addContentItem (name typeCodename externalId codename collectionCodename : String)
  | upsertContentItem (itemCodename : String) (payloadName payloadCollectionCodename : String)
deriving Repr, DecidableEq

/-- Embedding of `shouldUpdateContentItem`
(src/lib/import/importers/content-items-importer.ts lines 19 to 33):
resolve the collection of the existing target item and report whether
the snapshot name or collection codename differs. -/
def shouldUpdateContentItem (collections : List Collection) (migrationContentItem : MigrationItem)
    (contentItem : TargetContentItem) : Except String Bool :=
  match collections.find? (fun collection => collection.id == contentItem.collectionId) with
  | none => .error ("Invalid collection " ++ migrationContentItem.system.collection.codename)
  | some collection =>
      .ok (migrationContentItem.system.name != contentItem.name ||
        migrationContentItem.system.collection.codename != collection.codename)

/-- Embedding of `importContentItemAsync` together with
`prepareContentItemAsync`
(src/lib/import/importers/content-items-importer.ts lines 37 to 125),
reduced to the management-API calls it issues.  `createdContentItems`
is the per-session memo of codenames already created; it is consulted
only when the target probe says the item does not exist. -/
def importContentItemActions (collections : List Collection)
    (createdContentItems : List String) (state : ItemStateInTarget)
    (migrationItem : MigrationItem) : Except String (List ContentItemAction) :=
  match state with
  | .existsInTarget contentItem => do
      let update ← shouldUpdateContentItem collections migrationItem contentItem
      if update then
        .ok [.upsertContentItem migrationItem.system.codename migrationItem.system.name
          migrationItem.system.collection.codename]
      else
        .ok []
  | .doesNotExist externalIdToUse =>
      if createdContentItems.contains migrationItem.system.codename then .ok []
      else
        .ok [.addContentItem migrationItem.system.name migrationItem.system.type.codename
          externalIdToUse migrationItem.system.codename migrationItem.system.collection.codename]

/- Concrete fixtures used by witnesses: a two-step workflow whose first
step can reach review and published, plus migration items with various
version mixes. -/

/-- Example workflow used by witnesses. -/
def exWorkflow : Workflow :=
  { codename := "wf"
    steps :=
      [ WorkflowStep.mk "s1" "draft_step" ["review", "published"]
      , WorkflowStep.mk "s2" "review" ["draft_step", "published"] ]
    publishedStep := WorkflowStep.mk "sp" "published" []
    archivedStep := WorkflowStep.mk "sa" "archived" []
    scheduledStep := WorkflowStep.mk "ss" "scheduled" [] }

/-- Example system block used by witnesses. -/
def exSystem : MigrationItemSystem :=
  { name := "About"
    codename := "about"
    language := MigrationReference.mk "en"
    type := MigrationReference.mk "page"
    collection := MigrationReference.mk "main"
    workflow := MigrationReference.mk "wf" }

/-- A published snapshot version. -/
def exPublishedVersion : MigrationItemVersion :=
  { elements := [], schedule := none, workflow_step := MigrationReference.mk "published" }

/-- A draft snapshot version sitting at the review step. -/
def exDraftVersion : MigrationItemVersion :=
  { elements := [], schedule := none, workflow_step := MigrationReference.mk "review" }

/-- An item carrying one published and one draft version. -/
def exItemBoth : MigrationItem :=
  { system := exSystem, versions := [exPublishedVersion, exDraftVersion] }

/-- An item carrying only a draft version. -/
def exItemDraftOnly : MigrationItem :=
  { system := exSystem, versions := [exDraftVersion] }

/-- An item carrying two published versions. -/
def exItemTwoPublished : MigrationItem :=
  { system := exSystem, versions := [exPublishedVersion, exPublishedVersion] }

/-- An item carrying two draft versions. -/
def exItemTwoDrafts : MigrationItem :=
  { system := exSystem, versions := [exDraftVersion, exDraftVersion] }

/- ---------------------------------------------------------------------
   Theorems
--------------------------------------------------------------------- -/

/-- Claim C7: the default retry strategy permits at most 3 attempts
with exponential backoff of base 1000 ms and jitter enabled, and
classifies an error as retryable if and only if the response carries no
platform error code or carries exactly the rate-exceeded error code
10000; any other platform error code makes the error non-retryable. -/
theorem defaultRetryStrategy_spec :
    defaultRetryStrategy.maxAttempts = 3 ∧
    defaultRetryStrategy.deltaBackoffMs = 1000 ∧
    defaultRetryStrategy.addJitter = true ∧
    ∀ responseErrorCode : Option Nat,
      defaultRetryStrategy.canRetryError responseErrorCode =
        (responseErrorCode.isNone || responseErrorCode == some rateExceededErrorCode) := by
  refine ⟨rfl, rfl, rfl, ?_⟩
  intro responseErrorCode
  cases responseErrorCode with
  | none => rfl
  | some n =>
    show defaultCanRetryError (some n) = _
    unfold defaultCanRetryError
    simp only [Option.map_some', Option.getD_some, Option.isNone_some, Bool.false_or,
      Int.ofNat_eq_natCast]
    split
    · next hcond =>
        have hne : n ≠ rateExceededErrorCode := by
          unfold rateExceededErrorCode at hcond ⊢; omega
        simp [hne]
    · next hcond =>
        have heq : n = rateExceededErrorCode := by
          unfold rateExceededErrorCode at hcond ⊢; omega
        simp [heq]

/-- Claim C5: component codename-to-UUID conversion is a pure function
of the codename: when the codename with underscores replaced by hyphens
is a valid UUID it returns that normalized string, otherwise it returns
the deterministic UUID-v5 hash of the codename; in particular the
codename hero_banner always yields the hash of hero_banner. -/
theorem convertComponentCodenameToId_spec :
    (∀ uuidByString : String → String,
      convertComponentCodenameToId uuidByString "hero_banner" = uuidByString "hero_banner") ∧
    (∀ (uuidByString : String → String) (codename : String),
      validateUuid (normalizeCodenameToUuidCandidate codename) = true →
        convertComponentCodenameToId uuidByString codename =
          normalizeCodenameToUuidCandidate codename) ∧
    (∀ (uuidByString : String → String) (codename : String),
      validateUuid (normalizeCodenameToUuidCandidate codename) = false →
        convertComponentCodenameToId uuidByString codename = uuidByString codename) := by
  refine ⟨?_, ?_, ?_⟩
  · intro uuidByString
    have h : validateUuid (normalizeCodenameToUuidCandidate "hero_banner") = false := by decide
    simp [convertComponentCodenameToId, h]
  · intro uuidByString codename h
    simp [convertComponentCodenameToId, h]
  · intro uuidByString codename h
    simp [convertComponentCodenameToId, h]

/-- Witness for claim C5 at concrete codenames: hero_banner is hashed,
while a codename that normalizes to a canonical UUID is used
verbatim. -/
theorem convertComponentCodenameToId_spec_witness :
    convertComponentCodenameToId (fun s => s ++ "-hash") "hero_banner" = "hero_banner" ++ "-hash" ∧
    convertComponentCodenameToId (fun s => s ++ "-hash") "12345678_1234_1234_8234_123456789abc" =
      normalizeCodenameToUuidCandidate "12345678_1234_1234_8234_123456789abc" :=
  ⟨convertComponentCodenameToId_spec.2.2 (fun s => s ++ "-hash") "hero_banner" (by decide),
   convertComponentCodenameToId_spec.2.1 (fun s => s ++ "-hash")
     "12345678_1234_1234_8234_123456789abc" (by decide)⟩

/-- Claim C10: for an empty input list, both harness shapes return an
empty result immediately: the per-item process function is never
invoked (the result is the same for every process function) and no
progress or completion message is emitted. -/
theorem processItems_empty_spec :
    (∀ (ι ο ε : Type) (action : String) (itemTitle : ι → String)
        (process : ι → ProcessOutcome ο ε),
      processItemsAsync action ([] : List ι) itemTitle process =
        (([] : List (ItemProcessingResult ι ο ε)), ([] : List HarnessLogEntry))) ∧
    (∀ (ι ο ε : Type) (action : String) (failOnError : Option Bool) (itemTitle : ι → String)
        (process : ι → Except ε ο),
      processItemsFailFast action failOnError ([] : List ι) itemTitle process =
        .ok (([] : List ο), ([] : List HarnessLogEntry))) :=
  ⟨fun _ _ _ _ _ _ => rfl, fun _ _ _ _ _ _ _ => rfl⟩

/-- Claim C9: for a migration item whose codename already exists in the
target environment, the content item importer issues an upsert exactly
when the snapshot name or collection codename differs from the target
item, and the upsert payload contains exactly the name and collection
fields; no other call is issued for the item. -/
theorem importContentItem_upsert_spec :
    ∀ (collections : List Collection) (createdContentItems : List String)
      (migrationItem : MigrationItem) (contentItem : TargetContentItem)
      (collection : Collection),
      collections.find? (fun c => c.id == contentItem.collectionId) = some collection →
      importContentItemActions collections createdContentItems
          (.existsInTarget contentItem) migrationItem =
        .ok (if migrationItem.system.name ≠ contentItem.name ∨
                migrationItem.system.collection.codename ≠ collection.codename
          then [.upsertContentItem migrationItem.system.codename migrationItem.system.name
                migrationItem.system.collection.codename]
          else []) := by
  intro collections createdContentItems migrationItem contentItem collection hfind
  by_cases h1 : migrationItem.system.name = contentItem.name <;>
    by_cases h2 : migrationItem.system.collection.codename = collection.codename <;>
      simp [importContentItemActions, shouldUpdateContentItem, hfind, h1, h2,
        Bind.bind, Except.bind, bne_iff_ne]

/-- Witness for claim C9: an existing target item with a differing name
receives exactly one upsert with the name and collection payload, and
an identical one receives none. -/
theorem importContentItem_upsert_spec_witness :
    importContentItemActions [Collection.mk "col-id" "main"] []
        (.existsInTarget (TargetContentItem.mk "Old name" "about" "col-id"))
        (MigrationItem.mk
          (MigrationItemSystem.mk "New name" "about" (MigrationReference.mk "en")
            (MigrationReference.mk "page") (MigrationReference.mk "main")
            (MigrationReference.mk "wf")) []) =
      .ok [.upsertContentItem "about" "New name" "main"] ∧
    importContentItemActions [Collection.mk "col-id" "main"] []
        (.existsInTarget (TargetContentItem.mk "Same name" "about" "col-id"))
        (MigrationItem.mk
          (MigrationItemSystem.mk "Same name" "about" (MigrationReference.mk "en")
            (MigrationReference.mk "page") (MigrationReference.mk "main")
            (MigrationReference.mk "wf")) []) =
      .ok [] := by
  constructor
  · have h := importContentItem_upsert_spec [Collection.mk "col-id" "main"] []
      (MigrationItem.mk
        (MigrationItemSystem.mk "New name" "about" (MigrationReference.mk "en")
          (MigrationReference.mk "page") (MigrationReference.mk "main")
          (MigrationReference.mk "wf")) [])
      (TargetContentItem.mk "Old name" "about" "col-id")
      (Collection.mk "col-id" "main") rfl
    simpa using h
  · have h := importContentItem_upsert_spec [Collection.mk "col-id" "main"] []
      (MigrationItem.mk
        (MigrationItemSystem.mk "Same name" "about" (MigrationReference.mk "en")
          (MigrationReference.mk "page") (MigrationReference.mk "main")
          (MigrationReference.mk "wf")) [])
      (TargetContentItem.mk "Same name" "about" "col-id")
      (Collection.mk "col-id" "main") rfl
    simpa using h

/-- Claim C2: the language variant import raises a fatal per-item error
when the versions of an item contain more than one published version or
more than one draft (non-published) version, and otherwise partitions
the versions into at most one published and at most one draft
version. -/
theorem categorizeVersions_spec :
    ∀ (workflows : List Workflow) (migrationItem : MigrationItem) (workflow : Workflow),
      getWorkflowByCodename workflows migrationItem.system.workflow.codename = .ok workflow →
      (((migrationItem.versions.filter
            (fun v => isPublishedWorkflowStep v.workflow_step.codename workflow)).length > 1 ∨
        (migrationItem.versions.filter
            (fun v => !(isPublishedWorkflowStep v.workflow_step.codename workflow))).length > 1) →
        ∃ msg, categorizeVersions workflows migrationItem = .error msg) ∧
      ((migrationItem.versions.filter
            (fun v => isPublishedWorkflowStep v.workflow_step.codename workflow)).length ≤ 1 →
       (migrationItem.versions.filter
            (fun v => !(isPublishedWorkflowStep v.workflow_step.codename workflow))).length ≤ 1 →
        categorizeVersions workflows migrationItem =
          .ok ((migrationItem.versions.filter
              (fun v => isPublishedWorkflowStep v.workflow_step.codename workflow)).head?,
            (migrationItem.versions.filter
              (fun v => !(isPublishedWorkflowStep v.workflow_step.codename workflow))).head?)) := by
  intro workflows migrationItem workflow hwf
  constructor
  · intro hover
    rcases hover with hpub | hdraft
    · refine ⟨"There can be only 1 published version.", ?_⟩
      simp only [categorizeVersions, hwf, Bind.bind, Except.bind]
      rw [if_pos hpub]
    · by_cases hp : (migrationItem.versions.filter
          (fun v => isPublishedWorkflowStep v.workflow_step.codename workflow)).length > 1
      · refine ⟨"There can be only 1 published version.", ?_⟩
        simp only [categorizeVersions, hwf, Bind.bind, Except.bind]
        rw [if_pos hp]
      · refine ⟨"There can be only 1 draft version.", ?_⟩
        simp only [categorizeVersions, hwf, Bind.bind, Except.bind]
        rw [if_neg hp, if_pos hdraft]
  · intro hpub hdraft
    have hpub' : ¬((migrationItem.versions.filter
        (fun v => isPublishedWorkflowStep v.workflow_step.codename workflow)).length > 1) := by
      omega
    have hdraft' : ¬((migrationItem.versions.filter
        (fun v => !(isPublishedWorkflowStep v.workflow_step.codename workflow))).length > 1) := by
      omega
    simp [categorizeVersions, hwf, Bind.bind, Except.bind, hpub', hdraft']

/-- Witness for claim C2: with the example workflow, two published
versions and two draft versions are each rejected, while one of each is
partitioned into the published and draft slots. -/
theorem categorizeVersions_spec_witness :
    (∃ msg, categorizeVersions [exWorkflow] exItemTwoPublished = .error msg) ∧
    (∃ msg, categorizeVersions [exWorkflow] exItemTwoDrafts = .error msg) ∧
    categorizeVersions [exWorkflow] exItemBoth =
      .ok (some exPublishedVersion, some exDraftVersion) := by
  refine ⟨(categorizeVersions_spec [exWorkflow] exItemTwoPublished exWorkflow rfl).1
      (by decide),
    (categorizeVersions_spec [exWorkflow] exItemTwoDrafts exWorkflow rfl).1
      (by decide),
    ?_⟩
  have h := (categorizeVersions_spec [exWorkflow] exItemBoth exWorkflow rfl).2
    (by decide) (by decide)
  simpa using h

/-- A mapM over `Except` errors out whenever some list member maps to
an error. -/
theorem mapM_error_of_unresolved {α β : Type} (f : α → Except String β) :
    ∀ l : List α, (∃ x ∈ l, ∃ m, f x = .error m) → ∃ msg, l.mapM f = .error msg := by
  intro l
  rw [← List.mapM'_eq_mapM]
  induction l with
  | nil => rintro ⟨x, hx, _⟩; cases hx
  | cons a l ih =>
    rintro ⟨x, hx, m, hfx⟩
    cases hfa : f a with
    | error e =>
      exact ⟨e, by simp [List.mapM', hfa, Bind.bind, Except.bind]⟩
    | ok b =>
      have hxl : x ∈ l := by
        rcases List.mem_cons.mp hx with h | h
        · subst h; rw [hfa] at hfx; cases hfx
        · exact h
      obtain ⟨msg, hm⟩ := ih ⟨x, hxl, m, hfx⟩
      exact ⟨msg, by simp [List.mapM', hfa, hm, Bind.bind, Except.bind]⟩

/-- Claim C4: an item id referenced by a modular_content element that
does not resolve in the source environment is silently omitted from the
exported codename array with no error raised, whereas the asset and
subpages export transforms throw a hard error for an unresolved id. -/
theorem exportTransforms_missingReference_spec :
    ∀ (ctx : ExportTransformContext) (pre post : List (Option String)) (missingId : String),
      ctx.itemCodenameById missingId = none →
      ctx.assetCodenameById missingId = none →
      (exportTransformModularContent ctx (.refs (pre ++ some missingId :: post)) =
          exportTransformModularContent ctx (.refs (pre ++ post)) ∧
        ∃ refs, exportTransformModularContent ctx (.refs (pre ++ some missingId :: post)) =
          .ok refs) ∧
      (∃ msg, exportTransformAsset ctx (.refs (pre ++ some missingId :: post)) = .error msg) ∧
      (∃ msg, exportTransformSubpages ctx (.refs (pre ++ some missingId :: post)) =
        .error msg) := by
  intro ctx pre post missingId hitem hasset
  refine ⟨⟨?_, ?_⟩, ?_, ?_⟩
  · simp [exportTransformModularContent, List.filterMap_append, hitem]
  · exact ⟨_, rfl⟩
  · simp only [exportTransformAsset]
    apply mapM_error_of_unresolved
    refine ⟨missingId, ?_, "Missing asset with id " ++ missingId, by simp [hasset]⟩
    simp [List.filterMap_append]
  · simp only [exportTransformSubpages]
    apply mapM_error_of_unresolved
    refine ⟨missingId, ?_, "Missing item with id " ++ missingId, by simp [hitem]⟩
    simp [List.filterMap_append]

/-- Witness for claim C4: with one resolvable and one deleted id, the
modular_content export omits the deleted id while the asset and
subpages exports error out. -/
theorem exportTransforms_missingReference_spec_witness :
    (exportTransformModularContent
        (ExportTransformContext.mk
          (fun i => if i == "a1" then some "item_a" else none)
          (fun i => if i == "a1" then some "asset_a" else none))
        (.refs [some "a1", some "deleted", none]) =
      exportTransformModularContent
        (ExportTransformContext.mk
          (fun i => if i == "a1" then some "item_a" else none)
          (fun i => if i == "a1" then some "asset_a" else none))
        (.refs [some "a1", none]) ∧
      ∃ refs, exportTransformModularContent
        (ExportTransformContext.mk
          (fun i => if i == "a1" then some "item_a" else none)
          (fun i => if i == "a1" then some "asset_a" else none))
        (.refs [some "a1", some "deleted", none]) = .ok refs) ∧
    (∃ msg, exportTransformAsset
        (ExportTransformContext.mk
          (fun i => if i == "a1" then some "item_a" else none)
          (fun i => if i == "a1" then some "asset_a" else none))
        (.refs [some "a1", some "deleted", none]) = .error msg) ∧
    (∃ msg, exportTransformSubpages
        (ExportTransformContext.mk
          (fun i => if i == "a1" then some "item_a" else none)
          (fun i => if i == "a1" then some "asset_a" else none))
        (.refs [some "a1", some "deleted", none]) = .error msg) :=
  exportTransforms_missingReference_spec
    (ExportTransformContext.mk
      (fun i => if i == "a1" then some "item_a" else none)
      (fun i => if i == "a1" then some "asset_a" else none))
    [some "a1"] [none] "deleted" rfl rfl

/-- The keys accumulated by the element-building fold are the codenames
of the traversed type elements, in traversal order. -/
theorem getMigrationElements_fold_keys
    (transform : FlattenedContentTypeElement → ContentItemElement → String)
    (elements : List ContentItemElement) :
    ∀ (typeElements : List FlattenedContentTypeElement) (acc result : List (String × String)),
      typeElements.foldlM
        (fun model typeElement =>
          match elements.find? (fun m => m.elementId == typeElement.id) with
          | none => Except.error ("Could not find element " ++ typeElement.codename)
          | some itemElement =>
              Except.ok (model ++ [(typeElement.codename, transform typeElement itemElement)]))
        acc = .ok result →
      result.map Prod.fst = acc.map Prod.fst ++ typeElements.map (fun e => e.codename) := by
  intro typeElements
  induction typeElements with
  | nil =>
    intro acc result h
    simp only [List.foldlM_nil] at h
    cases h
    simp
  | cons t ts ih =>
    intro acc result h
    simp only [List.foldlM_cons] at h
    cases hfind : elements.find? (fun m => m.elementId == t.id) with
    | none => rw [hfind] at h; cases h
    | some itemElement =>
      rw [hfind] at h
      have h' := ih (acc ++ [(t.codename, transform t itemElement)]) result (by
        simpa [Bind.bind, Except.bind] using h)
      simp only [List.map_append, List.map_cons] at h' ⊢
      simpa using h'

/-- Totality of the lexicographic comparator. -/
theorem charListLe_total : ∀ as bs : List Char, charListLe as bs = true ∨ charListLe bs as = true := by
  intro as
  induction as with
  | nil => intro bs; left; rfl
  | cons a as ih =>
    intro bs
    cases bs with
    | nil => right; rfl
    | cons b bs =>
      rcases lt_trichotomy a b with h | h | h
      · left; simp [charListLe, h]
      · subst h
        rcases ih bs with hl | hr
        · left; simp [charListLe, hl]
        · right; simp [charListLe, hr]
      · right; simp [charListLe, h]

/-- Transitivity of the lexicographic comparator. -/
theorem charListLe_trans :
    ∀ as bs cs : List Char,
      charListLe as bs = true → charListLe bs cs = true → charListLe as cs = true := by
  intro as
  induction as with
  | nil => intro bs cs _ _; rfl
  | cons a as ih =>
    intro bs cs h1 h2
    cases bs with
    | nil => simp [charListLe] at h1
    | cons b bs =>
      cases cs with
      | nil => simp [charListLe] at h2
      | cons c cs =>
        rcases lt_trichotomy a b with hab | hab | hab
        · rcases lt_trichotomy b c with hbc | hbc | hbc
          · have hac : a < c := lt_trans hab hbc
            simp [charListLe, hac]
          · subst hbc; simp [charListLe, hab]
          · simp [charListLe, hbc, not_lt_of_gt hbc] at h2
        · subst hab
          rcases lt_trichotomy a c with hac | hac | hac
          · simp [charListLe, hac]
          · subst hac
            simp only [charListLe, lt_irrefl, if_false] at h1 h2 ⊢
            exact ih bs cs h1 h2
          · simp [charListLe, hac, not_lt_of_gt hac] at h2
        · simp [charListLe, hab, not_lt_of_gt hab] at h1

/-- Membership in an insertion result comes from the inserted element
or from the original list. -/
theorem mem_insertByCodename {y e : FlattenedContentTypeElement} :
    ∀ {l : List FlattenedContentTypeElement}, y ∈ insertByCodename e l → y = e ∨ y ∈ l := by
  intro l
  induction l with
  | nil =>
    intro hy
    simp [insertByCodename] at hy
    exact Or.inl hy
  | cons x xs ih =>
    intro hy
    by_cases hex : elementCodenameLe e x = true
    · rw [insertByCodename, if_pos hex] at hy
      rcases List.mem_cons.mp hy with h | h
      · exact Or.inl h
      · exact Or.inr h
    · rw [insertByCodename, if_neg hex] at hy
      rcases List.mem_cons.mp hy with h | h
      · exact Or.inr (h ▸ List.mem_cons_self x xs)
      · rcases ih h with h' | h'
        · exact Or.inl h'
        · exact Or.inr (List.mem_cons_of_mem x h')

/-- Inserting into a comparator-sorted list keeps it sorted. -/
theorem pairwise_insertByCodename (e : FlattenedContentTypeElement) :
    ∀ l : List FlattenedContentTypeElement,
      l.Pairwise (fun a b => elementCodenameLe a b = true) →
      (insertByCodename e l).Pairwise (fun a b => elementCodenameLe a b = true) := by
  intro l
  induction l with
  | nil => intro _; simp [insertByCodename]
  | cons x xs ih =>
    intro hp
    rw [List.pairwise_cons] at hp
    obtain ⟨hx, hxs⟩ := hp
    by_cases hex : elementCodenameLe e x = true
    · rw [insertByCodename, if_pos hex, List.pairwise_cons]
      refine ⟨?_, List.pairwise_cons.mpr ⟨hx, hxs⟩⟩
      intro y hy
      rcases List.mem_cons.mp hy with h | h
      · subst h; exact hex
      · exact charListLe_trans _ _ _ hex (hx y h)
    · rw [insertByCodename, if_neg hex, List.pairwise_cons]
      have hxe : elementCodenameLe x e = true := by
        rcases charListLe_total e.codename.data x.codename.data with h | h
        · exact absurd h hex
        · exact h
      refine ⟨?_, ih hxs⟩
      intro y hy
      rcases mem_insertByCodename hy with h | h
      · subst h; exact hxe
      · exact hx y h

/-- The sort used by the export manager produces a comparator-sorted
list. -/
theorem sorted_sortElementsByCodename (els : List FlattenedContentTypeElement) :
    (sortElementsByCodename els).Pairwise (fun a b => elementCodenameLe a b = true) := by
  induction els with
  | nil => simp [sortElementsByCodename]
  | cons e es ih => exact pairwise_insertByCodename e _ ih

/-- The lexicographic comparator agrees with the negation of the
lexicographic strict order used by the String order. -/
theorem charListLe_iff_not_lt :
    ∀ as bs : List Char, charListLe as bs = true ↔ ¬ bs < as := by
  intro as
  induction as with
  | nil =>
    intro bs
    constructor
    · intro _ h; cases h
    · intro _; rfl
  | cons a as ih =>
    intro bs
    cases bs with
    | nil =>
      constructor
      · intro h; simp [charListLe] at h
      · intro h; exact absurd List.Lex.nil h
    | cons b bs =>
      rcases lt_trichotomy a b with hab | hab | hab
      · constructor
        · intro _ hlt
          cases hlt with
          | rel hba => exact absurd hba (lt_asymm hab)
          | cons _ => exact absurd hab (lt_irrefl _)
        · intro _; simp [charListLe, hab]
      · subst hab
        have hred : charListLe (a :: as) (a :: bs) = charListLe as bs := by
          simp [charListLe]
        rw [hred, ih bs]
        constructor
        · intro h hlt
          cases hlt with
          | rel hba => exact absurd hba (lt_irrefl a)
          | cons htail => exact h htail
        · intro h hlt
          exact h (List.Lex.cons hlt)
      · constructor
        · intro h
          simp [charListLe, hab, not_lt_of_gt hab] at h
        · intro h
          exact absurd (List.Lex.rel hab) h

/-- The comparator agrees with the standard String order. -/
theorem elementCodenameLe_iff_le (a b : FlattenedContentTypeElement) :
    elementCodenameLe a b = true ↔ a.codename ≤ b.codename := by
  rw [String.le_iff_toList_le, ← not_lt]
  exact charListLe_iff_not_lt a.codename.data b.codename.data

/-- Claim C6: the element map of every exported item version lists its
keys in ascending element codename order: the content type element
descriptors are sorted by codename before mapping, so equal input
yields an identical, reproducible snapshot (the builder is a pure
function of its input). -/
theorem getMigrationElements_sorted_spec :
    ∀ (transform : FlattenedContentTypeElement → ContentItemElement → String)
      (contentType : FlattenedContentType) (elements : List ContentItemElement)
      (result : List (String × String)),
      getMigrationElements transform contentType elements = .ok result →
      result.map Prod.fst =
        (sortElementsByCodename contentType.elements).map (fun e => e.codename) ∧
      List.Sorted (· ≤ ·) (result.map Prod.fst) := by
  intro transform contentType elements result h
  have hkeys := getMigrationElements_fold_keys transform elements
    (sortElementsByCodename contentType.elements) [] result h
  simp only [List.map_nil, List.nil_append] at hkeys
  refine ⟨hkeys, ?_⟩
  rw [hkeys]
  have hsorted := sorted_sortElementsByCodename contentType.elements
  exact List.Pairwise.map (fun e : FlattenedContentTypeElement => e.codename)
    (fun a b hab => (elementCodenameLe_iff_le a b).mp hab) hsorted

/-- Witness for claim C6: a content type whose elements are declared
out of order produces an element map keyed in ascending codename
order. -/
theorem getMigrationElements_sorted_spec_witness :
    (getMigrationElements (fun _ _ => "v")
        (FlattenedContentType.mk "page"
          [ FlattenedContentTypeElement.mk "e2" "title" "text"
          , FlattenedContentTypeElement.mk "e1" "heading" "text" ])
        [ ContentItemElement.mk "e1" (.scalar "Hello")
        , ContentItemElement.mk "e2" (.scalar "World") ]).isOk = true ∧
    (getMigrationElements (fun _ _ => "v")
        (FlattenedContentType.mk "page"
          [ FlattenedContentTypeElement.mk "e2" "title" "text"
          , FlattenedContentTypeElement.mk "e1" "heading" "text" ])
        [ ContentItemElement.mk "e1" (.scalar "Hello")
        , ContentItemElement.mk "e2" (.scalar "World") ]) =
      .ok [("heading", "v"), ("title", "v")] ∧
    List.Sorted (· ≤ ·) ["heading", "title"] := by
  refine ⟨rfl, rfl, ?_⟩
  have h := (getMigrationElements_sorted_spec (fun _ _ => "v")
    (FlattenedContentType.mk "page"
      [ FlattenedContentTypeElement.mk "e2" "title" "text"
      , FlattenedContentTypeElement.mk "e1" "heading" "text" ])
    [ ContentItemElement.mk "e1" (.scalar "Hello")
    , ContentItemElement.mk "e2" (.scalar "World") ]
    [("heading", "v"), ("title", "v")] (by rfl)).2
  simpa using h

/-- With the fail-fast flag set, the sequential core rejects with the
first error once every earlier item succeeds. -/
theorem runFailFastAux_error {ι ο ε : Type} (itemTitle : ι → String)
    (process : ι → Except ε ο) (n : Nat) :
    ∀ (pre : List ι) (x : ι) (post : List ι) (e : ε) (count : Nat),
      (∀ y ∈ pre, ∃ o, process y = .ok o) →
      process x = .error e →
      runFailFastAux true itemTitle process n count (pre ++ x :: post) = .error e := by
  intro pre
  induction pre with
  | nil =>
    intro x post e count _ hx
    simp only [List.nil_append, runFailFastAux, hx]
    rfl
  | cons y pre ih =>
    intro x post e count hpre hx
    obtain ⟨o, hy⟩ := hpre y (List.mem_cons_self y pre)
    have hrest : ∀ z ∈ pre, ∃ o, process z = .ok o :=
      fun z hz => hpre z (List.mem_cons_of_mem y hz)
    simp only [List.cons_append, runFailFastAux, hy, List.append_eq]
    rw [ih x post e (count + 1) hrest hx]

/-- Without the fail-fast flag, the sequential core never rejects. -/
theorem runFailFastAux_ok {ι ο ε : Type} (itemTitle : ι → String)
    (process : ι → Except ε ο) (n : Nat) :
    ∀ (items : List ι) (count : Nat),
      ∃ result, runFailFastAux false itemTitle process n count items = .ok result := by
  intro items
  induction items with
  | nil => intro count; exact ⟨([], []), rfl⟩
  | cons item rest ih =>
    intro count
    cases hp : process item with
    | ok o =>
      obtain ⟨⟨os, ls⟩, h⟩ := ih (count + 1)
      exact ⟨(o :: os,
          HarnessLogEntry.progress (roundPercent count n) (itemTitle item) :: ls),
        by simp only [runFailFastAux, hp, h]⟩
    | error e =>
      obtain ⟨⟨os, ls⟩, h⟩ := ih count
      refine ⟨(os, HarnessLogEntry.errorLog (itemTitle item) :: ls), ?_⟩
      simp only [runFailFastAux, hp, h, Bool.false_eq_true, if_false]

/-- Claim C8: an exception thrown by the per-item process function is
caught and recorded against that item's result slot and processing
continues for the remaining items (the harness of
processing-utils.ts, which has no fail-fast flag, and the second
harness shape with failOnError false), while with failOnError true the
first error in input order cancels the batch and propagates to the
caller. -/
theorem processingHarness_error_spec :
    (∀ (ι ο ε : Type) (action : String) (items : List ι) (itemTitle : ι → String)
        (process : ι → ProcessOutcome ο ε),
      (processItemsAsync action items itemTitle process).1 =
        items.map (classifyProcessOutcome process)) ∧
    (∀ (ι ο ε : Type) (action : String) (items : List ι) (itemTitle : ι → String)
        (process : ι → ProcessOutcome ο ε) (k : Nat) (hk : k < items.length) (e : ε),
      process (items.get ⟨k, hk⟩) = .failure e →
      ∃ hk' : k < (processItemsAsync action items itemTitle process).1.length,
        (processItemsAsync action items itemTitle process).1.get ⟨k, hk'⟩ =
          .error (items.get ⟨k, hk⟩) e) ∧
    (∀ (ι ο ε : Type) (action : String) (itemTitle : ι → String) (process : ι → Except ε ο)
        (pre : List ι) (x : ι) (post : List ι) (e : ε),
      (∀ y ∈ pre, ∃ o, process y = .ok o) →
      process x = .error e →
      processItemsFailFast action (some true) (pre ++ x :: post) itemTitle process =
        .error e) ∧
    (∀ (ι ο ε : Type) (action : String) (items : List ι) (itemTitle : ι → String)
        (process : ι → Except ε ο),
      ∃ result, processItemsFailFast action (some false) items itemTitle process =
        .ok result) := by
  refine ⟨?_, ?_, ?_, ?_⟩
  · intro ι ο ε action items itemTitle process
    cases items with
    | nil => rfl
    | cons first rest => rfl
  · intro ι ο ε action items itemTitle process k hk e hfail
    have hmap : (processItemsAsync action items itemTitle process).1 =
        items.map (classifyProcessOutcome process) := by
      cases items with
      | nil => rfl
      | cons first rest => rfl
    have hk' : k < (processItemsAsync action items itemTitle process).1.length := by
      rw [hmap, List.length_map]; exact hk
    refine ⟨hk', ?_⟩
    have hget : (processItemsAsync action items itemTitle process).1.get ⟨k, hk'⟩ =
        classifyProcessOutcome process (items.get ⟨k, hk⟩) := by
      have hcast := List.get_of_eq hmap ⟨k, hk'⟩
      rw [hcast]
      simp [List.getElem_map]
    rw [hget, classifyProcessOutcome, hfail]
  · intro ι ο ε action itemTitle process pre x post e hpre hx
    have hne : pre ++ x :: post ≠ [] := by
      cases pre <;> simp
    cases hitems : pre ++ x :: post with
    | nil => exact absurd hitems hne
    | cons first rest =>
      simp only [processItemsFailFast, Option.getD_some]
      rw [← hitems, runFailFastAux_error itemTitle process (pre ++ x :: post).length
        pre x post e 1 hpre hx]
  · intro ι ο ε action items itemTitle process
    cases items with
    | nil => exact ⟨([], []), rfl⟩
    | cons first rest =>
      obtain ⟨⟨os, ls⟩, h⟩ := runFailFastAux_ok itemTitle process
        (first :: rest).length (first :: rest) 1
      refine ⟨(os,
        HarnessLogEntry.progress (roundPercent 0 (first :: rest).length) (itemTitle first)
          :: ls ++ [HarnessLogEntry.completionCount action os.length]), ?_⟩
      simp only [processItemsFailFast, Option.getD_some, h]

/-- Witness for claim C8: over three numeric items where the middle one
throws, the first harness records the error in the middle slot and
still processes the third item; the fail-fast shape with failOnError
true propagates that error, and with failOnError false it succeeds with
the remaining outputs. -/
theorem processingHarness_error_spec_witness :
    (processItemsAsync "Importing content items" [1, 2, 3] (fun n => toString n)
        (fun n => if n == 2 then .failure "boom" else .success (n * 10))).1 =
      [.valid 1 10, .error 2 "boom", .valid 3 30] ∧
    processItemsFailFast "Importing content items" (some true) [1, 2, 3]
        (fun n => toString n)
        (fun n => if n == 2 then Except.error "boom" else Except.ok (n * 10)) =
      .error "boom" ∧
    ∃ result, processItemsFailFast "Importing content items" (some false) [1, 2, 3]
        (fun n => toString n)
        (fun n => if n == 2 then Except.error "boom" else Except.ok (n * 10)) =
      .ok result := by
  refine ⟨?_, ?_, ?_⟩
  · rw [processingHarness_error_spec.1 Nat Nat String "Importing content items" [1, 2, 3]
      (fun n => toString n) (fun n => if n == 2 then .failure "boom" else .success (n * 10))]
    decide
  · have h := processingHarness_error_spec.2.2.1 Nat Nat String "Importing content items"
      (fun n => toString n)
      (fun n => if n == 2 then Except.error "boom" else Except.ok (n * 10))
      [1] 2 [3] "boom" (by intro y hy; simp at hy; subst hy; exact ⟨10, rfl⟩) rfl
    simpa using h
  · exact processingHarness_error_spec.2.2.2 Nat Nat String "Importing content items" [1, 2, 3]
      (fun n => toString n)
      (fun n => if n == 2 then Except.error "boom" else Except.ok (n * 10))

/-- Claim C3: when the snapshot step of an imported version is the
published step, the workflow driver first moves the variant to the
penultimate step of the shortest path from the current variant step to
the published step (when that step exists) and then publishes; a
publish failure classified as bad publish is swallowed and logged with
a publishError message, while every other publish error propagates. -/
theorem setWorkflow_published_spec :
    ∀ (workflows : List Workflow) (outcome : PublishOutcome)
      (workflowCodename stepCodename variantStepId : String)
      (workflow : Workflow) (publishStep variantStep : WorkflowStep),
      isPublishedStepByCodename workflows stepCodename = true →
      getWorkflowAndStepByCodenames workflows workflowCodename stepCodename =
        .ok (workflow, publishStep) →
      getWorkflowStepById workflow variantStepId = .ok variantStep →
      setWorkflowOfLanguageVariantAsync workflows outcome workflowCodename stepCodename
          variantStepId =
        (match outcome with
          | .success => Except.ok
              ((match getPreviousToPublishStep workflow variantStep publishStep with
                | some prev => [VariantEvent.changeWorkflowStep prev]
                | none => []) ++ [VariantEvent.publishCall])
          | .failure true msg => Except.ok
              ((match getPreviousToPublishStep workflow variantStep publishStep with
                | some prev => [VariantEvent.changeWorkflowStep prev]
                | none => []) ++
                [VariantEvent.publishCall, VariantEvent.publishErrorLogged msg])
          | .failure false msg => Except.error msg) := by
  intro workflows outcome workflowCodename stepCodename variantStepId workflow publishStep
    variantStep hpub h1 h2
  unfold setWorkflowOfLanguageVariantAsync
  rw [if_pos hpub]
  rw [h1]
  simp only [Bind.bind, Except.bind]
  rw [h2]
  cases outcome with
  | success => simp [publishLanguageVariantAsync]
  | failure bad msg =>
    cases bad <;> simp [publishLanguageVariantAsync]

/-- Witness for claim C3: with the example workflow and a variant
sitting at the first step, the driver changes to the penultimate path
step and publishes; a bad publish is swallowed with a log entry and a
non-bad publish error propagates. -/
theorem setWorkflow_published_spec_witness :
    setWorkflowOfLanguageVariantAsync [exWorkflow] .success "wf" "published" "s1" =
      .ok [.changeWorkflowStep "draft_step", .publishCall] ∧
    setWorkflowOfLanguageVariantAsync [exWorkflow] (.failure true "limit") "wf" "published" "s1" =
      .ok [.changeWorkflowStep "draft_step", .publishCall, .publishErrorLogged "limit"] ∧
    setWorkflowOfLanguageVariantAsync [exWorkflow] (.failure false "fatal") "wf" "published" "s1" =
      .error "fatal" := by
  refine ⟨?_, ?_, ?_⟩
  · exact (setWorkflow_published_spec [exWorkflow] .success "wf" "published" "s1"
      exWorkflow (WorkflowStep.mk "sp" "published" [])
      (WorkflowStep.mk "s1" "draft_step" ["review", "published"]) rfl rfl rfl).trans (by rfl)
  · exact (setWorkflow_published_spec [exWorkflow] (.failure true "limit") "wf" "published" "s1"
      exWorkflow (WorkflowStep.mk "sp" "published" [])
      (WorkflowStep.mk "s1" "draft_step" ["review", "published"]) rfl rfl rfl).trans (by rfl)
  · exact (setWorkflow_published_spec [exWorkflow] (.failure false "fatal") "wf" "published" "s1"
      exWorkflow (WorkflowStep.mk "sp" "published" [])
      (WorkflowStep.mk "s1" "draft_step" ["review", "published"]) rfl rfl rfl).trans (by rfl)

/-- Scheduling never issues a create-new-version call. -/
theorem createNewVersion_notMem_setScheduled (version : MigrationItemVersion) :
    VariantEvent.createNewVersion ∉ setScheduledStateOfLanguageVariantAsync version := by
  unfold setScheduledStateOfLanguageVariantAsync
  cases version.schedule with
  | none => simp
  | some schedule =>
    obtain ⟨pt, ptz, ut, utz⟩ := schedule
    cases ut <;> cases utz <;> cases pt <;> cases ptz <;> simp

/-- The workflow driver never issues a create-new-version call. -/
theorem createNewVersion_notMem_setWorkflow
    (workflows : List Workflow) (outcome : PublishOutcome)
    (workflowCodename stepCodename variantStepId : String) (evs : List VariantEvent) :
    setWorkflowOfLanguageVariantAsync workflows outcome workflowCodename stepCodename
      variantStepId = .ok evs →
    VariantEvent.createNewVersion ∉ evs := by
  intro h
  unfold setWorkflowOfLanguageVariantAsync at h
  by_cases hpub : isPublishedStepByCodename workflows stepCodename = true
  · rw [if_pos hpub] at h
    cases h1 : getWorkflowAndStepByCodenames workflows workflowCodename stepCodename with
    | error e => rw [h1] at h; simp [Bind.bind, Except.bind] at h
    | ok ws =>
      obtain ⟨workflow, publishStep⟩ := ws
      rw [h1] at h
      simp only [Bind.bind, Except.bind] at h
      cases h2 : getWorkflowStepById workflow variantStepId with
      | error e => rw [h2] at h; simp at h
      | ok variantStep =>
        rw [h2] at h
        cases outcome with
        | success =>
          simp only [publishLanguageVariantAsync] at h
          cases h
          cases hprev : getPreviousToPublishStep workflow variantStep publishStep <;>
            simp [hprev]
        | failure bad msg =>
          cases bad with
          | true =>
            simp only [publishLanguageVariantAsync] at h
            cases h
            cases hprev : getPreviousToPublishStep workflow variantStep publishStep <;>
              simp [hprev]
          | false => simp [publishLanguageVariantAsync] at h
  · rw [if_neg hpub] at h
    by_cases harch : isArchivedStepByCodename workflows stepCodename = true
    · rw [if_pos harch] at h
      cases h1 : getWorkflowByCodename workflows workflowCodename with
      | error e => rw [h1] at h; simp [Bind.bind, Except.bind] at h
      | ok workflow =>
        rw [h1] at h
        simp only [Bind.bind, Except.bind] at h
        cases h
        simp
    · rw [if_neg harch] at h
      by_cases hsched : isScheduledStepByCodename workflows stepCodename = true
      · rw [if_pos hsched] at h
        cases h
        simp
      · rw [if_neg hsched] at h
        cases h1 : getWorkflowAndStepByCodenames workflows workflowCodename stepCodename with
        | error e => rw [h1] at h; simp [Bind.bind, Except.bind] at h
        | ok ws =>
          obtain ⟨workflow, step⟩ := ws
          rw [h1] at h
          simp only [Bind.bind, Except.bind] at h
          cases h
          simp

/-- The event trace of one successful version import decomposes into
the optional create-new-version call, the upsert, the workflow driver
events and the scheduling events, in that order. -/
theorem importVersion_shape (workflows : List Workflow) (outcome : PublishOutcome)
    (migrationItem : MigrationItem) (version : MigrationItemVersion)
    (createNewVersion : Bool) (evs : List VariantEvent) :
    importVersionAsync workflows outcome migrationItem version createNewVersion = .ok evs →
    ∃ (workflow : Workflow) (step firstStep : WorkflowStep) (wfEvents : List VariantEvent),
      getWorkflowAndStepByCodenames workflows migrationItem.system.workflow.codename
        version.workflow_step.codename = .ok (workflow, step) ∧
      workflow.steps.head? = some firstStep ∧
      setWorkflowOfLanguageVariantAsync workflows outcome workflow.codename step.codename
        firstStep.id = .ok wfEvents ∧
      evs = (if createNewVersion then [VariantEvent.createNewVersion] else []) ++
        [VariantEvent.upsertVariant workflow.codename firstStep.codename
          version.workflow_step.codename] ++
        wfEvents ++ setScheduledStateOfLanguageVariantAsync version := by
  intro h
  unfold importVersionAsync at h
  cases h1 : getWorkflowAndStepByCodenames workflows migrationItem.system.workflow.codename
      version.workflow_step.codename with
  | error e => rw [h1] at h; simp [Bind.bind, Except.bind] at h
  | ok ws =>
    obtain ⟨workflow, step⟩ := ws
    rw [h1] at h
    simp only [Bind.bind, Except.bind] at h
    cases h2 : workflow.steps.head? with
    | none => rw [h2] at h; cases h
    | some firstStep =>
      rw [h2] at h
      cases h3 : setWorkflowOfLanguageVariantAsync workflows outcome workflow.codename
          step.codename firstStep.id with
      | error e => simp [h3] at h
      | ok wfEvents =>
        simp only [h3, Except.ok.injEq] at h
        exact ⟨workflow, step, firstStep, wfEvents, rfl, h2, h3, h.symm⟩

/-- A version import with the create-new-version flag begins with the
create-new-version call and issues no second one; without the flag it
never issues one. -/
theorem importVersion_createNewVersion (workflows : List Workflow) (outcome : PublishOutcome)
    (migrationItem : MigrationItem) (version : MigrationItemVersion)
    (evs : List VariantEvent) :
    (importVersionAsync workflows outcome migrationItem version true = .ok evs →
      ∃ rest, evs = VariantEvent.createNewVersion :: rest ∧
        VariantEvent.createNewVersion ∉ rest) ∧
    (importVersionAsync workflows outcome migrationItem version false = .ok evs →
      VariantEvent.createNewVersion ∉ evs) := by
  constructor
  · intro h
    obtain ⟨workflow, step, firstStep, wfEvents, _, _, h3, heq⟩ :=
      importVersion_shape workflows outcome migrationItem version true evs h
    refine ⟨[VariantEvent.upsertVariant workflow.codename firstStep.codename
        version.workflow_step.codename] ++
      wfEvents ++ setScheduledStateOfLanguageVariantAsync version, ?_, ?_⟩
    · simpa using heq
    · have hwf := createNewVersion_notMem_setWorkflow workflows outcome workflow.codename
        step.codename firstStep.id wfEvents h3
      have hsched := createNewVersion_notMem_setScheduled version
      simp [hwf, hsched]
  · intro h
    obtain ⟨workflow, step, firstStep, wfEvents, _, _, h3, heq⟩ :=
      importVersion_shape workflows outcome migrationItem version false evs h
    subst heq
    have hwf := createNewVersion_notMem_setWorkflow workflows outcome workflow.codename
      step.codename firstStep.id wfEvents h3
    have hsched := createNewVersion_notMem_setScheduled version
    simp [hwf, hsched]

/-- Claim C1: for an item whose snapshot carries both a published and a
draft version, the language variant importer performs the
upsert-and-workflow sequence of the published version strictly before
that of the draft version (the trace is the concatenation of the
preparation events, the published version events and the draft version
events, in that order), and it requests creation of a new version for
the draft exactly when a published version was imported in the same
run: with both versions present the draft trace begins with the
create-new-version call and contains no other one, and with only a
draft version present no create-new-version call is issued at all. -/
theorem importLanguageVariant_order_spec :
    (∀ (workflows : List Workflow) (outcome : PublishOutcome)
        (targetVariantState : Option TargetVariantState) (migrationItem : MigrationItem)
        (publishedVersion draftVersion : MigrationItemVersion)
        (prepareEvents publishedEvents draftEvents : List VariantEvent),
      categorizeVersions workflows migrationItem =
        .ok (some publishedVersion, some draftVersion) →
      prepareTargetEnvironmentVariantForImportAsync workflows migrationItem
        targetVariantState = .ok prepareEvents →
      importVersionAsync workflows outcome migrationItem publishedVersion false =
        .ok publishedEvents →
      importVersionAsync workflows outcome migrationItem draftVersion true =
        .ok draftEvents →
      importLanguageVariantAsync workflows outcome targetVariantState migrationItem =
        .ok (prepareEvents ++ publishedEvents ++ draftEvents) ∧
      VariantEvent.createNewVersion ∉ publishedEvents ∧
      ∃ rest, draftEvents = VariantEvent.createNewVersion :: rest ∧
        VariantEvent.createNewVersion ∉ rest) ∧
    (∀ (workflows : List Workflow) (outcome : PublishOutcome)
        (migrationItem : MigrationItem) (draftVersion : MigrationItemVersion)
        (draftEvents : List VariantEvent),
      categorizeVersions workflows migrationItem = .ok (none, some draftVersion) →
      importVersionAsync workflows outcome migrationItem draftVersion false =
        .ok draftEvents →
      importLanguageVariantAsync workflows outcome none migrationItem = .ok draftEvents ∧
      VariantEvent.createNewVersion ∉ draftEvents) := by
  constructor
  · intro workflows outcome targetVariantState migrationItem publishedVersion draftVersion
      prepareEvents publishedEvents draftEvents hcat hprep hpubImport hdraftImport
    refine ⟨?_, ?_, ?_⟩
    · unfold importLanguageVariantAsync
      rw [hcat]
      simp only [Bind.bind, Except.bind]
      rw [hprep]
      simp only [Option.isSome_some, Option.isNone_some]
      rw [hpubImport]
      simp only [Bool.false_eq_true, and_false, if_false]
      rw [hdraftImport]
      simp [Pure.pure, Except.pure]
    · exact (importVersion_createNewVersion workflows outcome migrationItem publishedVersion
        publishedEvents).2 hpubImport
    · exact (importVersion_createNewVersion workflows outcome migrationItem draftVersion
        draftEvents).1 hdraftImport
  · intro workflows outcome migrationItem draftVersion draftEvents hcat hdraftImport
    refine ⟨?_, ?_⟩
    · unfold importLanguageVariantAsync
      rw [hcat]
      simp only [Bind.bind, Except.bind, prepareTargetEnvironmentVariantForImportAsync]
      simp only [Option.isNone_none, Option.none_bind, Option.isSome_none,
        Bool.false_eq_true, false_and, if_false]
      rw [hdraftImport]
      simp [Pure.pure, Except.pure]
    · exact (importVersion_createNewVersion workflows outcome migrationItem draftVersion
        draftEvents).2 hdraftImport

/-- Witness for claim C1: with the example workflow, an item carrying a
published and a review draft version imports the published version
first (upsert, move to the penultimate step, publish) and then the
draft behind a fresh version, while the draft-only item never requests
a new version. -/
theorem importLanguageVariant_order_spec_witness :
    importLanguageVariantAsync [exWorkflow] .success none exItemBoth =
      .ok ([] ++
        [VariantEvent.upsertVariant "wf" "draft_step" "published",
         VariantEvent.changeWorkflowStep "draft_step", VariantEvent.publishCall] ++
        [VariantEvent.createNewVersion,
         VariantEvent.upsertVariant "wf" "draft_step" "review",
         VariantEvent.changeWorkflowStep "review"]) ∧
    (∃ rest,
      [VariantEvent.createNewVersion,
       VariantEvent.upsertVariant "wf" "draft_step" "review",
       VariantEvent.changeWorkflowStep "review"] =
        VariantEvent.createNewVersion :: rest ∧
      VariantEvent.createNewVersion ∉ rest) ∧
    importLanguageVariantAsync [exWorkflow] .success none exItemDraftOnly =
      .ok [VariantEvent.upsertVariant "wf" "draft_step" "review",
        VariantEvent.changeWorkflowStep "review"] ∧
    VariantEvent.createNewVersion ∉
      [VariantEvent.upsertVariant "wf" "draft_step" "review",
       VariantEvent.changeWorkflowStep "review"] := by
  have hboth := importLanguageVariant_order_spec.1 [exWorkflow] .success none exItemBoth
    exPublishedVersion exDraftVersion []
    [VariantEvent.upsertVariant "wf" "draft_step" "published",
     VariantEvent.changeWorkflowStep "draft_step", VariantEvent.publishCall]
    [VariantEvent.createNewVersion,
     VariantEvent.upsertVariant "wf" "draft_step" "review",
     VariantEvent.changeWorkflowStep "review"]
    (by rfl) (by rfl) (by rfl) (by rfl)
  have hdraft := importLanguageVariant_order_spec.2 [exWorkflow] .success exItemDraftOnly
    exDraftVersion
    [VariantEvent.upsertVariant "wf" "draft_step" "review",
     VariantEvent.changeWorkflowStep "review"]
    (by rfl) (by rfl)
  exact ⟨hboth.1, hboth.2.2, hdraft.1, hdraft.2⟩

end Migration
